import Mathlib

set_option maxRecDepth 8192

/-!
Verification of the firmware scanner (scanner.go): a forensic extraction
tool that derives candidate payload boundaries from relocation metadata,
decompresses candidate ranges, and classifies each decompressed payload as
a multi-entry archive or a whole blob, writing results to disk.

The embedding below models the byte-level parsing, the payload classifier
(`Process`), the boundary segmenter from `main`, and the relocation
extractor (`ParseRelocations`). Bytes are natural numbers taken mod 256;
signed 32-bit and 64-bit fields are decoded to `Int` with explicit
two-complement conversion. Filesystem effects are recorded as a list of
operations; a Go runtime panic (negative-length `make`, slice bounds out
of range, symbol index out of range) is modelled as an explicit outcome.
-/

namespace Scanner

/-- A payload or raw section: a sequence of bytes (each taken mod 256). -/
abbrev Bytes := List Nat

/-- Read one byte; out-of-range reads yield 0 (only ever used behind
length guards, mirroring `binary.Read` leaving the target zero-valued). -/
def readByte (data : Bytes) (i : Nat) : Nat := data.getD i 0 % 256

/-- Little-endian unsigned 32-bit read at byte position `i`. -/
def readU32 (data : Bytes) (i : Nat) : Nat :=
  readByte data i + 256 * readByte data (i+1) + 65536 * readByte data (i+2) +
    16777216 * readByte data (i+3)

/-- Reinterpret an unsigned 32-bit value as a signed int32 (two-complement). -/
def toInt32 (n : Nat) : Int :=
  if n < 2147483648 then (n : Int) else (n : Int) - 4294967296

/-- Little-endian signed int32 read, as in `binary.Read` with `int32` target. -/
def readI32 (data : Bytes) (i : Nat) : Int := toInt32 (readU32 data i)

/-- Little-endian unsigned 64-bit read at byte position `i`. -/
def readU64 (data : Bytes) (i : Nat) : Nat :=
  readU32 data i + 4294967296 * readU32 data (i+4)

/-- Reinterpret an unsigned 64-bit value as a signed int64 (two-complement). -/
def toInt64 (n : Nat) : Int :=
  if n < 9223372036854775808 then (n : Int) else (n : Int) - 18446744073709551616

/-- `ArchiveHeader.Magic`: first int32 of the payload; zero when the 8-byte
header read fails short (`binary.Read` leaves the struct zero-valued). -/
def hdrMagic (data : Bytes) : Int :=
  if data.length < 8 then 0 else readI32 data 0

/-- `ArchiveHeader.Count`: second int32 of the payload; zero on short read. -/
def hdrCount (data : Bytes) : Int :=
  if data.length < 8 then 0 else readI32 data 4

/-- `ArchiveEntry`: fixed 12-byte record `{Id, Length, Offset}`, int32 LE. -/
structure ArchiveEntry where
  id : Int
  length : Int
  offset : Int
deriving DecidableEq, Repr

/-- Decode the `i`-th archive entry, stored at byte `8 + 12*i`. -/
def readEntry (data : Bytes) (i : Nat) : ArchiveEntry :=
  { id := readI32 data (8 + 12*i)
  , length := readI32 data (8 + 12*i + 4)
  , offset := readI32 data (8 + 12*i + 8) }

/-- The entry-reading loop of `Process`: read `k` entries starting at index
`i`, failing (`none`, which makes `Process` return early) on a short read or
on the first entry whose offset points back into the header/entry region. -/
def readEntriesFrom (data : Bytes) (minOffset : Int) : Nat → Nat → Option (List ArchiveEntry)
  | _, 0 => some []
  | i, k+1 =>
    if data.length < 8 + 12 * i + 12 then none
    else
      let e := readEntry data i
      if e.offset < minOffset then none
      else (readEntriesFrom data minOffset (i+1) k).map (fun es => e :: es)

/-- The fixed ID-to-name table (`names` in scanner.go). -/
def names (id : Int) : Option String :=
  if id = 0 then some ("fecs_data") else
  if id = 1 then some ("fecs_inst") else
  if id = 2 then some ("gpccs_data") else
  if id = 3 then some ("gpccs_inst") else
  if id = 4 then some ("sw_bundle_init") else
  if id = 5 then some ("sw_ctx") else
  if id = 6 then some ("sw_nonctx") else
  if id = 7 then some ("sw_method_init") else
  if id = 8 then some ("ctxreg_sys") else
  if id = 9 then some ("ctxreg_gpc") else
  if id = 10 then some ("ctxreg_tpc") else
  if id = 11 then some ("ctxreg_zcull_gpc") else
  if id = 12 then some ("ctxreg_pm_sys") else
  if id = 13 then some ("ctxreg_pm_gpc") else
  if id = 14 then some ("ctxreg_pm_tpc") else
  if id = 15 then some ("majorv") else
  if id = 16 then some ("buffer_size") else
  if id = 17 then some ("ctxsw_reg_base_index") else
  if id = 18 then some ("netlist_num") else
  if id = 19 then some ("ctxreg_ppc") else
  if id = 20 then some ("ctxreg_pmppc") else
  if id = 21 then some ("nvperf_ctxreg_sys") else
  if id = 22 then some ("nvperf_fbp_ctxregs") else
  if id = 23 then some ("nvperf_ctxreg_gpc") else
  if id = 24 then some ("nvperf_fbp_router") else
  if id = 25 then some ("nvperf_gpc_router") else
  if id = 26 then some ("ctxreg_pmltc") else
  if id = 27 then some ("ctxreg_pmfbpa") else
  if id = 28 then some ("swveidbundleinit") else
  if id = 29 then some ("nvperf_sys_router") else
  if id = 30 then some ("nvperf_pma") else
  if id = 31 then some ("ctxreg_pmrop") else
  if id = 32 then some ("ctxreg_pmucgpc") else
  if id = 33 then some ("ctxreg_etpc") else
  if id = 34 then some ("sw_bundle64_init") else
  if id = 35 then some ("nvperf_pmcau") else
  none

/-- Filename for an entry: map lookup, with the Go map-miss empty string
replaced by `unk<id>` (`fmt.Sprintf` renders negative ids with a minus). -/
def nameFor (id : Int) : String :=
  match names id with
  | some s => s
  | none => "unk" ++ toString id

/-- A filesystem path, modelled as its slash-separated segments
(`path.Join(a, b)` appends one segment). The destination directory is one
opaque segment. -/
abbrev FsPath := List String

/-- A recorded filesystem effect of the classifier. -/
inductive FileOp where
  | mkdir (path : FsPath)
  | write (path : FsPath) (content : Bytes)
deriving DecidableEq, Repr

/-- The `Processor` struct: destination directory and the two counters. -/
structure Processor where
  destdir : String
  archiveCounter : Nat
  wholeCounter : Nat
deriving DecidableEq, Repr

/-- Outcome of one `Process` call: normal return with the effects performed
and the updated state, or a Go runtime panic (effects before the panic are
still recorded; the counters are never advanced on the panicking path). -/
inductive ProcessResult where
  | ok (ops : List FileOp) (p : Processor)
  | panics (ops : List FileOp)
deriving DecidableEq, Repr

/-- `fmt.Sprintf` zero padding: `%0<w>d` of a natural number. -/
def zeroPad (w : Nat) (n : Nat) : String :=
  String.mk (List.replicate (w - (toString n).length) ('0' : Char)) ++ toString n

/-- Wrap an integer to signed int32 range, as Go int32 addition does. -/
def int32wrap (x : Int) : Int := (x + 2147483648) % 4294967296 - 2147483648

/-- Go slice expression `data[lo:hi]` with int32 indices: `none` models the
runtime panic when `0 ≤ lo ≤ hi ≤ len(data)` fails. -/
def sliceBytes (data : Bytes) (lo hi : Int) : Option Bytes :=
  if 0 ≤ lo ∧ lo ≤ hi ∧ hi ≤ (data.length : Int) then
    some ((data.drop lo.toNat).take (hi - lo).toNat)
  else none

/-- The emit loop of `Process`: write one file per entry into `base`.
Returns the writes performed and whether a slice-bounds panic occurred
(writes before the panicking entry are kept; later entries are not
reached). -/
def emitEntries (data : Bytes) (base : FsPath) : List ArchiveEntry → (List FileOp × Bool)
  | [] => ([], false)
  | e :: rest =>
    match sliceBytes data e.offset (int32wrap (e.offset + e.length)) with
    | none => ([], true)
    | some content =>
      let r := emitEntries data base rest
      (FileOp.write (base ++ [nameFor e.id]) content :: r.1, r.2)

/-- The non-archive disposition of `Process`: drop payloads under 128
bytes, otherwise write the whole payload as `whole_<NNN>` and advance the
whole-blob counter. -/
def wholeBlobStep (p : Processor) (data : Bytes) : ProcessResult :=
  if data.length < 128 then ProcessResult.ok [] p
  else ProcessResult.ok
    [FileOp.write [p.destdir, "whole_" ++ zeroPad 3 p.wholeCounter] data]
    { p with wholeCounter := p.wholeCounter + 1 }

/-- `(*Processor).Process`: probe the 8-byte header; small payloads, a
nonzero magic or more than 64 entries go to the whole-blob path; a
negative count panics in `make([]ArchiveEntry, count)`; otherwise the
entries are validated, an empty or invalid entry list returns with no
effect, and a valid list is emitted as `archive_<NN>` with one file per
entry, advancing the archive counter. -/
def process (p : Processor) (data : Bytes) : ProcessResult :=
  if data.length < 32768 ∨ hdrMagic data ≠ 0 ∨ 64 < hdrCount data then
    wholeBlobStep p data
  else if hdrCount data < 0 then
    ProcessResult.panics []
  else
    let n := (hdrCount data).toNat
    let minOffset : Int := 8 + 12 * (n : Int)
    match readEntriesFrom data minOffset 0 n with
    | none => ProcessResult.ok [] p
    | some entries =>
      if entries.length = 0 then ProcessResult.ok [] p
      else
        let archbase : FsPath := [p.destdir, "archive_" ++ zeroPad 2 p.archiveCounter]
        let r := emitEntries data archbase entries
        if r.2 then ProcessResult.panics (FileOp.mkdir archbase :: r.1)
        else ProcessResult.ok (FileOp.mkdir archbase :: r.1)
          { p with archiveCounter := p.archiveCounter + 1 }

/-- Outcome of a whole run over a list of decompressed payloads: all
effects in order, the final state, and whether a panic aborted the run. -/
structure RunOut where
  ops : List FileOp
  proc : Processor
  panicked : Bool
deriving DecidableEq, Repr

/-- Process a list of decompressed payloads in order (the segment loop of
`main` restricted to the payloads that decompressed); a panic halts the
run, keeping the effects performed so far. -/
def run (p : Processor) : List Bytes → RunOut
  | [] => ⟨[], p, false⟩
  | d :: rest =>
    match process p d with
    | ProcessResult.ok ops p2 =>
      let r := run p2 rest
      ⟨ops ++ r.ops, r.proc, r.panicked⟩
    | ProcessResult.panics ops => ⟨ops, p, true⟩

/-- Paths of the directories created by a run. The only `Mkdir` in the
code is the per-archive directory. -/
def mkdirPaths (ops : List FileOp) : List FsPath :=
  ops.filterMap (fun op =>
    match op with
    | FileOp.mkdir q => some q
    | FileOp.write _ _ => none)

/-- Paths of the whole-blob writes of a run: exactly the writes placed
directly in the destination directory (two path segments); archive entry
files live one level deeper (three segments). -/
def wholeWritePaths (ops : List FileOp) : List FsPath :=
  ops.filterMap (fun op =>
    match op with
    | FileOp.mkdir _ => none
    | FileOp.write q _ => if q.length = 2 then some q else none)

/-- All candidate ranges of the segment loop in `main`: for each offset in
the (sorted) list, the range from the previous offset (or the initial
`prev = 0`) to it. -/
def candidatesAux : Int → List Int → List (Int × Int)
  | _, [] => []
  | prev, off :: rest => (prev, off) :: candidatesAux off rest

/-- Wrap an integer to signed int64 range, as Go int64 subtraction does. -/
def int64wrap (x : Int) : Int :=
  (x + 9223372036854775808) % 18446744073709551616 - 9223372036854775808

/-- The segment loop of `main`: a candidate range whose `off - prev`,
computed in wrapping int64 arithmetic as Go does, is below 32 is skipped
(`continue`); the rest are kept. -/
def segmentsAux : Int → List Int → List (Int × Int)
  | _, [] => []
  | prev, off :: rest =>
    if int64wrap (off - prev) < 32 then segmentsAux off rest
    else (prev, off) :: segmentsAux off rest

/-- The sorted boundary list: relocation offsets with the section length
appended as sentinel, sorted ascending (`sort.Slice`). -/
def sortedBoundaries (offsets : List Int) (sentinel : Int) : List Int :=
  List.insertionSort (fun a b => a ≤ b) (offsets ++ [sentinel])

/-- The Boundary Segmenter: ranges the segment loop of `main` processes. -/
def segmenter (offsets : List Int) (sentinel : Int) : List (Int × Int) :=
  segmentsAux 0 (sortedBoundaries offsets sentinel)

/-- An ELF symbol-table entry, reduced to the two fields the scanner
reads: the `Info` byte (type tag in the low nibble) and the index of the
owning section. -/
structure ElfSymbol where
  info : Nat
  sectionIndex : Nat
deriving DecidableEq, Repr

/-- Outcome of `ParseRelocations`: the collected addends, or a fatal abort
of the run (an explicit `panic` or a runtime index panic). -/
inductive RelocResult where
  | fatal
  | ok (offsets : List Int)
deriving DecidableEq, Repr

/-- The record loop of `ParseRelocations`: `k` consecutive 24-byte Rela64
records starting at record index `j` (fields `Off`, `Info`, `Addend`, the
last signed). The symbol number is the high 32 bits of `Info`, used as a
1-based index; an out-of-range symbol or section index is a runtime panic
(`none`). A record whose symbol is not a section symbol, or whose section
is not the target, is skipped; accepted records contribute their addend. -/
def relocLoop (rels : Bytes) (symbols : List ElfSymbol)
    (sectionNames : List String) (target : String) : Nat → Nat → Option (List Int)
  | _, 0 => some []
  | j, k+1 =>
    let info := readU64 rels (24*j + 8)
    let addend := toInt64 (readU64 rels (24*j + 16))
    let symNo := info / 4294967296
    if symNo = 0 ∨ symbols.length ≤ symNo - 1 then none
    else
      let sym := symbols.getD (symNo - 1) ⟨0, 0⟩
      if sym.info % 16 ≠ 3 then relocLoop rels symbols sectionNames target (j+1) k
      else if sectionNames.length ≤ sym.sectionIndex then none
      else if sectionNames.getD sym.sectionIndex ("") ≠ target then
        relocLoop rels symbols sectionNames target (j+1) k
      else (relocLoop rels symbols sectionNames target (j+1) k).map
        (fun os => addend :: os)

/-- `ParseRelocations`: the relocation-section byte buffer must be an
exact multiple of the 24-byte record size, else the run fails fatally
before any record is processed; then every record is read in order. -/
def parseRelocations (rels : Bytes) (symbols : List ElfSymbol)
    (sectionNames : List String) (target : String) : RelocResult :=
  if rels.length % 24 ≠ 0 then RelocResult.fatal
  else
    match relocLoop rels symbols sectionNames target 0 (rels.length / 24) with
    | none => RelocResult.fatal
    | some os => RelocResult.ok os

/-! ### Concrete payloads used as witnesses and counterexamples -/

/-- 32768 zero bytes: decodes to magic 0 and count 0. -/
def zeroCountPayload : Bytes := List.replicate 32768 0

/-- Header magic 0, count 1, followed by one entry whose offset field 0 is
below the minimal legal offset 8 + 12*1 = 20; padded to 32768 bytes. -/
def badEntryPayload : Bytes :=
  [0,0,0,0, 1,0,0,0] ++ [0,0,0,0, 0,0,0,0, 0,0,0,0] ++ List.replicate 32748 9

/-- Header magic 0, count -2147483648 (byte 7 = 0x80); 32768 bytes. -/
def negCountPayload : Bytes := [0,0,0,0, 0,0,0,128] ++ List.replicate 32760 0

/-- Header magic 0, count 1, one entry {id 0, length 65536, offset 32}:
the offset passes validation but offset+length overruns the 32768-byte
payload. -/
def oobEntryPayload : Bytes :=
  [0,0,0,0, 1,0,0,0] ++ [0,0,0,0, 0,0,1,0, 32,0,0,0] ++ List.replicate 32748 9

/-- Header magic 0, count 2, entries {id 1, length 4, offset 32} and
{id 100, length 4, offset 36}; padded with 7s to 32768 bytes. -/
def twoEntryPayload : Bytes :=
  [0,0,0,0, 2,0,0,0] ++
  [1,0,0,0, 4,0,0,0, 32,0,0,0] ++
  [100,0,0,0, 4,0,0,0, 36,0,0,0] ++
  List.replicate 32736 7

/-! ### Basic bounds on decoded fields -/

lemma readByte_lt (data : Bytes) (i : Nat) : readByte data i < 256 :=
  Nat.mod_lt _ (by omega)

lemma readU32_lt (data : Bytes) (i : Nat) : readU32 data i < 4294967296 := by
  have h0 := readByte_lt data i
  have h1 := readByte_lt data (i+1)
  have h2 := readByte_lt data (i+2)
  have h3 := readByte_lt data (i+3)
  unfold readU32
  omega

lemma readI32_bounds (data : Bytes) (i : Nat) :
    -2147483648 ≤ readI32 data i ∧ readI32 data i < 2147483648 := by
  have := readU32_lt data i
  unfold readI32 toInt32
  split <;> omega

lemma readEntry_offset_bounds (data : Bytes) (i : Nat) :
    -2147483648 ≤ (readEntry data i).offset ∧ (readEntry data i).offset < 2147483648 :=
  readI32_bounds data (8 + 12*i + 8)

lemma readEntry_length_bounds (data : Bytes) (i : Nat) :
    -2147483648 ≤ (readEntry data i).length ∧ (readEntry data i).length < 2147483648 :=
  readI32_bounds data (8 + 12*i + 4)

lemma int32wrap_eq_self (x : Int) (h1 : -2147483648 ≤ x) (h2 : x < 2147483648) :
    int32wrap x = x := by
  unfold int32wrap
  omega

lemma int32wrap_of_big (x : Int) (h1 : 2147483648 ≤ x) (h2 : x < 6442450944) :
    int32wrap x = x - 4294967296 := by
  unfold int32wrap
  omega

/-! ### Unfolding equations for the entry and emit loops -/

lemma readEntriesFrom_zero (data : Bytes) (mo : Int) (i : Nat) :
    readEntriesFrom data mo i 0 = some [] := rfl

lemma readEntriesFrom_succ (data : Bytes) (mo : Int) (i k : Nat) :
    readEntriesFrom data mo i (k+1) =
      if data.length < 8 + 12 * i + 12 then none
      else if (readEntry data i).offset < mo then none
      else (readEntriesFrom data mo (i+1) k).map (fun es => readEntry data i :: es) := rfl

lemma emitEntries_nil (data : Bytes) (base : FsPath) :
    emitEntries data base [] = ([], false) := rfl

lemma emitEntries_cons (data : Bytes) (base : FsPath) (e : ArchiveEntry)
    (rest : List ArchiveEntry) :
    emitEntries data base (e :: rest) =
      match sliceBytes data e.offset (int32wrap (e.offset + e.length)) with
      | none => ([], true)
      | some content =>
        (FileOp.write (base ++ [nameFor e.id]) content :: (emitEntries data base rest).1,
         (emitEntries data base rest).2) := rfl

/-- If the entry loop succeeds, every entry in the read range passed the
minimum-offset validation. -/
lemma readEntriesFrom_some_offsets {data : Bytes} {mo : Int} :
    ∀ {k start : Nat} {es : List ArchiveEntry},
      readEntriesFrom data mo start k = some es →
      ∀ i, start ≤ i → i < start + k → mo ≤ (readEntry data i).offset := by
  intro k
  induction k with
  | zero => intro start es _ i h1 h2; omega
  | succ k ih =>
    intro start es h i h1 h2
    rw [readEntriesFrom_succ] at h
    by_cases hsr : data.length < 8 + 12 * start + 12
    · rw [if_pos hsr] at h; exact absurd h (by simp)
    · rw [if_neg hsr] at h
      by_cases hoff : (readEntry data start).offset < mo
      · rw [if_pos hoff] at h; exact absurd h (by simp)
      · rw [if_neg hoff] at h
        rcases Nat.eq_or_lt_of_le h1 with rfl | hlt
        · exact le_of_not_lt hoff
        · cases hrec : readEntriesFrom data mo (start+1) k with
          | none => rw [hrec] at h; exact absurd h (by simp)
          | some es2 => exact ih hrec i hlt (by omega)

/-- If every entry in range passes validation and the payload is long
enough, the entry loop returns exactly the decoded entries. -/
lemma readEntriesFrom_eq_some {data : Bytes} {mo : Int} :
    ∀ (k start : Nat),
      (∀ i, start ≤ i → i < start + k → mo ≤ (readEntry data i).offset) →
      8 + 12 * (start + k) ≤ data.length →
      readEntriesFrom data mo start k =
        some ((List.range' start k).map (readEntry data)) := by
  intro k
  induction k with
  | zero => intro start _ _; simp [readEntriesFrom_zero]
  | succ k ih =>
    intro start h hl
    rw [readEntriesFrom_succ, if_neg (by omega),
      if_neg (not_lt.mpr (h start le_rfl (by omega)))]
    rw [ih (start+1) (fun i hi1 hi2 => h i (by omega) (by omega)) (by omega)]
    simp [List.range'_succ]

/-- Any entry whose slice is out of bounds makes the emit loop panic. -/
lemma emitEntries_panics {data : Bytes} {base : FsPath} {e : ArchiveEntry} :
    ∀ {es : List ArchiveEntry}, e ∈ es →
      sliceBytes data e.offset (int32wrap (e.offset + e.length)) = none →
      (emitEntries data base es).2 = true := by
  intro es
  induction es with
  | nil => simp
  | cons a rest ih =>
    intro hmem hsl
    rw [emitEntries_cons]
    cases hsla : sliceBytes data a.offset (int32wrap (a.offset + a.length)) with
    | none => rfl
    | some c =>
      rcases List.mem_cons.mp hmem with rfl | hm
      · rw [hsla] at hsl; exact absurd hsl (by simp)
      · simpa using ih hm hsl

/-- Every effect of the emit loop is a file write directly inside the
archive directory. -/
lemma emitEntries_ops_shape (data : Bytes) (base : FsPath) :
    ∀ (es : List ArchiveEntry), ∀ op ∈ (emitEntries data base es).1,
      ∃ nm c, op = FileOp.write (base ++ [nm]) c := by
  intro es
  induction es with
  | nil => simp [emitEntries_nil]
  | cons a rest ih =>
    intro op hop
    rw [emitEntries_cons] at hop
    cases hsla : sliceBytes data a.offset (int32wrap (a.offset + a.length)) with
    | none => rw [hsla] at hop; simp at hop
    | some c =>
      rw [hsla] at hop
      rcases List.mem_cons.mp hop with rfl | hm
      · exact ⟨nameFor a.id, c, rfl⟩
      · exact ih op hm

/-- Branch lemma: when the probe accepts (large payload, zero magic,
count at most 64) and the count is non-negative, `process` runs the
archive path. -/
lemma process_archive (p : Processor) (data : Bytes)
    (hc : ¬(data.length < 32768 ∨ hdrMagic data ≠ 0 ∨ 64 < hdrCount data))
    (hnn : 0 ≤ hdrCount data) :
    process p data =
      match readEntriesFrom data (8 + 12 * ((hdrCount data).toNat : Int)) 0
          (hdrCount data).toNat with
      | none => ProcessResult.ok [] p
      | some entries =>
        if entries.length = 0 then ProcessResult.ok [] p
        else
          let archbase : FsPath := [p.destdir, "archive_" ++ zeroPad 2 p.archiveCounter]
          let r := emitEntries data archbase entries
          if r.2 then ProcessResult.panics (FileOp.mkdir archbase :: r.1)
          else ProcessResult.ok (FileOp.mkdir archbase :: r.1)
            { p with archiveCounter := p.archiveCounter + 1 } := by
  unfold process
  rw [if_neg hc, if_neg (not_lt.mpr hnn)]

/-! ### Evaluation facts for the concrete payloads -/

lemma zeroCountPayload_length : zeroCountPayload.length = 32768 := by
  rw [zeroCountPayload, List.length_replicate]

lemma badEntryPayload_length : badEntryPayload.length = 32768 := by
  rw [badEntryPayload, List.length_append, List.length_append, List.length_replicate]
  decide

lemma negCountPayload_length : negCountPayload.length = 32768 := by
  rw [negCountPayload, List.length_append, List.length_replicate]
  decide

lemma oobEntryPayload_length : oobEntryPayload.length = 32768 := by
  rw [oobEntryPayload, List.length_append, List.length_append, List.length_replicate]
  decide

lemma twoEntryPayload_length : twoEntryPayload.length = 32768 := by
  rw [twoEntryPayload, List.length_append, List.length_append, List.length_append,
    List.length_replicate]
  decide

lemma zeroCountPayload_hdr : hdrMagic zeroCountPayload = 0 ∧ hdrCount zeroCountPayload = 0 := by
  unfold hdrMagic hdrCount
  rw [zeroCountPayload_length]
  exact ⟨by decide, by decide⟩

lemma badEntryPayload_hdr : hdrMagic badEntryPayload = 0 ∧ hdrCount badEntryPayload = 1 := by
  unfold hdrMagic hdrCount
  rw [badEntryPayload_length]
  exact ⟨by decide, by decide⟩

lemma badEntryPayload_entry : (readEntry badEntryPayload 0).offset = 0 := by
  decide

lemma negCountPayload_hdr :
    hdrMagic negCountPayload = 0 ∧ hdrCount negCountPayload = -2147483648 := by
  unfold hdrMagic hdrCount
  rw [negCountPayload_length]
  exact ⟨by decide, by decide⟩

lemma oobEntryPayload_hdr : hdrMagic oobEntryPayload = 0 ∧ hdrCount oobEntryPayload = 1 := by
  unfold hdrMagic hdrCount
  rw [oobEntryPayload_length]
  exact ⟨by decide, by decide⟩

lemma oobEntryPayload_entry : readEntry oobEntryPayload 0 = ⟨0, 65536, 32⟩ := by
  decide

lemma twoEntryPayload_hdr : hdrMagic twoEntryPayload = 0 ∧ hdrCount twoEntryPayload = 2 := by
  unfold hdrMagic hdrCount
  rw [twoEntryPayload_length]
  exact ⟨by decide, by decide⟩

lemma twoEntryPayload_entries :
    readEntry twoEntryPayload 0 = ⟨1, 4, 32⟩ ∧ readEntry twoEntryPayload 1 = ⟨100, 4, 36⟩ := by
  exact ⟨by decide, by decide⟩

/-! ### Shared behaviour lemmas backing the claims -/

/-- The probe accepts: the header condition of `Process` fails. -/
lemma probe_accepts {data : Bytes} (h1 : 32768 ≤ data.length) (h2 : hdrMagic data = 0)
    (h3 : hdrCount data ≤ 64) :
    ¬(data.length < 32768 ∨ hdrMagic data ≠ 0 ∨ 64 < hdrCount data) := by
  push_neg
  exact ⟨by omega, h2, by omega⟩

/-- A probed archive payload with an entry below the minimum offset is
returned from with no effect. -/
lemma process_bad_entry (p : Processor) (data : Bytes)
    (h1 : 32768 ≤ data.length) (h2 : hdrMagic data = 0) (h3 : hdrCount data ≤ 64)
    (i : Nat) (hi : i < (hdrCount data).toNat)
    (hbad : (readEntry data i).offset < 8 + 12 * hdrCount data) :
    process p data = ProcessResult.ok [] p := by
  have hnn : 0 ≤ hdrCount data := by omega
  rw [process_archive p data (probe_accepts h1 h2 h3) hnn]
  cases hre : readEntriesFrom data (8 + 12 * ((hdrCount data).toNat : Int)) 0
      (hdrCount data).toNat with
  | none => rfl
  | some es =>
    exfalso
    have hoff := readEntriesFrom_some_offsets hre i (Nat.zero_le i) (by omega)
    have hcast : ((hdrCount data).toNat : Int) = hdrCount data := Int.toNat_of_nonneg hnn
    rw [hcast] at hoff
    omega

/-- A probed archive payload with count 0 is returned from with no
effect. -/
lemma process_zero_count (p : Processor) (data : Bytes)
    (hm : hdrMagic data = 0) (hz : hdrCount data = 0) (hl : 32768 ≤ data.length) :
    process p data = ProcessResult.ok [] p := by
  rw [process_archive p data (probe_accepts hl hm (by omega)) (by omega), hz]
  rfl

/-- Branch lemma: the archive path once the entry loop has succeeded. -/
lemma process_archive_some (p : Processor) (data : Bytes)
    (hc : ¬(data.length < 32768 ∨ hdrMagic data ≠ 0 ∨ 64 < hdrCount data))
    (hnn : 0 ≤ hdrCount data) (es : List ArchiveEntry)
    (hre : readEntriesFrom data (8 + 12 * ((hdrCount data).toNat : Int)) 0
      (hdrCount data).toNat = some es) :
    process p data =
      if es.length = 0 then ProcessResult.ok [] p
      else if (emitEntries data [p.destdir, "archive_" ++ zeroPad 2 p.archiveCounter] es).2 then
        ProcessResult.panics (FileOp.mkdir [p.destdir, "archive_" ++ zeroPad 2 p.archiveCounter]
          :: (emitEntries data [p.destdir, "archive_" ++ zeroPad 2 p.archiveCounter] es).1)
      else
        ProcessResult.ok (FileOp.mkdir [p.destdir, "archive_" ++ zeroPad 2 p.archiveCounter]
            :: (emitEntries data [p.destdir, "archive_" ++ zeroPad 2 p.archiveCounter] es).1)
          { p with archiveCounter := p.archiveCounter + 1 } := by
  rw [process_archive p data hc hnn, hre]

/-! ### Effect-selector lemmas -/

lemma mkdirPaths_nil : mkdirPaths [] = [] := rfl

lemma wholeWritePaths_nil : wholeWritePaths [] = [] := rfl

lemma mkdirPaths_append (a b : List FileOp) :
    mkdirPaths (a ++ b) = mkdirPaths a ++ mkdirPaths b := by
  unfold mkdirPaths
  rw [List.filterMap_append]

lemma wholeWritePaths_append (a b : List FileOp) :
    wholeWritePaths (a ++ b) = wholeWritePaths a ++ wholeWritePaths b := by
  unfold wholeWritePaths
  rw [List.filterMap_append]

lemma mkdirPaths_cons_mkdir (q : FsPath) (ops : List FileOp) :
    mkdirPaths (FileOp.mkdir q :: ops) = q :: mkdirPaths ops := rfl

lemma wholeWritePaths_cons_mkdir (q : FsPath) (ops : List FileOp) :
    wholeWritePaths (FileOp.mkdir q :: ops) = wholeWritePaths ops := rfl

/-- A write directly inside the destination directory (two segments) is a
whole-blob write. -/
lemma wholeWritePaths_cons_whole (a b : String) (c : Bytes) (ops : List FileOp) :
    wholeWritePaths (FileOp.write [a, b] c :: ops) = [a, b] :: wholeWritePaths ops := rfl

/-- One `Process` call that returns normally either has no effect, or
writes one whole blob named by the current whole counter and bumps it, or
creates one archive directory named by the current archive counter (all
entry files written one level deeper) and bumps it. -/
lemma process_step_cases (p : Processor) (d : Bytes) (ops : List FileOp) (p2 : Processor)
    (h : process p d = ProcessResult.ok ops p2) :
    (ops = [] ∧ p2 = p) ∨
    (mkdirPaths ops = [] ∧
      wholeWritePaths ops = [[p.destdir, "whole_" ++ zeroPad 3 p.wholeCounter]] ∧
      p2 = ⟨p.destdir, p.archiveCounter, p.wholeCounter + 1⟩) ∨
    (mkdirPaths ops = [[p.destdir, "archive_" ++ zeroPad 2 p.archiveCounter]] ∧
      wholeWritePaths ops = [] ∧
      p2 = ⟨p.destdir, p.archiveCounter + 1, p.wholeCounter⟩) := by
  by_cases hc : d.length < 32768 ∨ hdrMagic d ≠ 0 ∨ 64 < hdrCount d
  · by_cases hsm : d.length < 128
    · have he : process p d = ProcessResult.ok [] p := by
        unfold process wholeBlobStep
        rw [if_pos hc, if_pos hsm]
      rw [he] at h
      injection h with h1 h2
      exact Or.inl ⟨h1.symm, h2.symm⟩
    · have he : process p d = ProcessResult.ok
          [FileOp.write [p.destdir, "whole_" ++ zeroPad 3 p.wholeCounter] d]
          ⟨p.destdir, p.archiveCounter, p.wholeCounter + 1⟩ := by
        unfold process wholeBlobStep
        rw [if_pos hc, if_neg hsm]
      rw [he] at h
      injection h with h1 h2
      refine Or.inr (Or.inl ⟨?_, ?_, h2.symm⟩)
      · rw [← h1]
        rfl
      · rw [← h1]
        rfl
  · by_cases hneg : hdrCount d < 0
    · have he : process p d = ProcessResult.panics [] := by
        unfold process
        rw [if_neg hc, if_pos hneg]
      rw [he] at h
      exact absurd h (by simp)
    · have hnn : (0:Int) ≤ hdrCount d := by omega
      cases hre : readEntriesFrom d (8 + 12 * ((hdrCount d).toNat : Int)) 0
          (hdrCount d).toNat with
      | none =>
        have he : process p d = ProcessResult.ok [] p := by
          rw [process_archive p d hc hnn, hre]
        rw [he] at h
        injection h with h1 h2
        exact Or.inl ⟨h1.symm, h2.symm⟩
      | some es =>
        by_cases hz : es.length = 0
        · have he : process p d = ProcessResult.ok [] p := by
            rw [process_archive_some p d hc hnn es hre, if_pos hz]
          rw [he] at h
          injection h with h1 h2
          exact Or.inl ⟨h1.symm, h2.symm⟩
        · by_cases hflag :
            (emitEntries d [p.destdir, "archive_" ++ zeroPad 2 p.archiveCounter] es).2 = true
          · have he : process p d = ProcessResult.panics
                (FileOp.mkdir [p.destdir, "archive_" ++ zeroPad 2 p.archiveCounter]
                  :: (emitEntries d [p.destdir, "archive_" ++ zeroPad 2 p.archiveCounter] es).1) := by
              rw [process_archive_some p d hc hnn es hre, if_neg hz, if_pos hflag]
            rw [he] at h
            exact absurd h (by simp)
          · have he : process p d = ProcessResult.ok
                (FileOp.mkdir [p.destdir, "archive_" ++ zeroPad 2 p.archiveCounter]
                  :: (emitEntries d [p.destdir, "archive_" ++ zeroPad 2 p.archiveCounter] es).1)
                ⟨p.destdir, p.archiveCounter + 1, p.wholeCounter⟩ := by
              rw [process_archive_some p d hc hnn es hre, if_neg hz, if_neg hflag]
            rw [he] at h
            injection h with h1 h2
            have hshape := emitEntries_ops_shape d
              [p.destdir, "archive_" ++ zeroPad 2 p.archiveCounter] es
            have hmk : mkdirPaths
                (emitEntries d [p.destdir, "archive_" ++ zeroPad 2 p.archiveCounter] es).1 = [] :=
              List.filterMap_eq_nil_iff.mpr (fun op hop => by
                obtain ⟨nm, c, rfl⟩ := hshape op hop
                rfl)
            have hww : wholeWritePaths
                (emitEntries d [p.destdir, "archive_" ++ zeroPad 2 p.archiveCounter] es).1 = [] :=
              List.filterMap_eq_nil_iff.mpr (fun op hop => by
                obtain ⟨nm, c, rfl⟩ := hshape op hop
                rfl)
            refine Or.inr (Or.inr ⟨?_, ?_, h2.symm⟩)
            · rw [← h1, mkdirPaths_cons_mkdir, hmk]
            · rw [← h1, wholeWritePaths_cons_mkdir, hww]

lemma run_nil (p : Processor) : run p [] = ⟨[], p, false⟩ := rfl

lemma run_cons_eq (p : Processor) (d : Bytes) (rest : List Bytes) (ops : List FileOp)
    (p2 : Processor) (h : process p d = ProcessResult.ok ops p2) :
    run p (d :: rest) =
      ⟨ops ++ (run p2 rest).ops, (run p2 rest).proc, (run p2 rest).panicked⟩ := by
  show (match process p d with
    | ProcessResult.ok ops p2 =>
      let r := run p2 rest
      RunOut.mk (ops ++ r.ops) r.proc r.panicked
    | ProcessResult.panics ops => RunOut.mk ops p true) = _
  rw [h]

lemma run_cons_ok (p : Processor) (d : Bytes) (rest : List Bytes) (ops : List FileOp)
    (p2 : Processor) (h : process p d = ProcessResult.ok ops p2) :
    (run p (d :: rest)).ops = ops ++ (run p2 rest).ops ∧
    (run p (d :: rest)).proc = (run p2 rest).proc ∧
    (run p (d :: rest)).panicked = (run p2 rest).panicked := by
  rw [run_cons_eq p d rest ops p2 h]
  exact ⟨rfl, rfl, rfl⟩

lemma run_cons_panics (p : Processor) (d : Bytes) (rest : List Bytes) (ops : List FileOp)
    (h : process p d = ProcessResult.panics ops) :
    (run p (d :: rest)).panicked = true := by
  have heq : run p (d :: rest) = ⟨ops, p, true⟩ := by
    show (match process p d with
      | ProcessResult.ok ops p2 =>
        let r := run p2 rest
        RunOut.mk (ops ++ r.ops) r.proc r.panicked
      | ProcessResult.panics ops => RunOut.mk ops p true) = _
    rw [h]
  rw [heq]

/-- Run invariant: starting from any state, a non-panicking run creates
exactly the archive directories indexed consecutively from the starting
archive counter, and exactly the whole-blob files indexed consecutively
from the starting whole counter, in processing order. -/
lemma run_invariant (ds : List Bytes) :
    ∀ p : Processor, (run p ds).panicked = false →
      (run p ds).proc.destdir = p.destdir ∧
      p.archiveCounter ≤ (run p ds).proc.archiveCounter ∧
      p.wholeCounter ≤ (run p ds).proc.wholeCounter ∧
      mkdirPaths (run p ds).ops =
        (List.range' p.archiveCounter
            ((run p ds).proc.archiveCounter - p.archiveCounter)).map
          (fun i => [p.destdir, "archive_" ++ zeroPad 2 i]) ∧
      wholeWritePaths (run p ds).ops =
        (List.range' p.wholeCounter
            ((run p ds).proc.wholeCounter - p.wholeCounter)).map
          (fun i => [p.destdir, "whole_" ++ zeroPad 3 i]) := by
  induction ds with
  | nil =>
    intro p hp
    rw [run_nil]
    exact ⟨rfl, le_refl _, le_refl _, by simp [mkdirPaths_nil],
      by simp [wholeWritePaths_nil]⟩
  | cons d rest ih =>
    intro p hp
    cases hpd : process p d with
    | panics ops =>
      rw [run_cons_panics p d rest ops hpd] at hp
      exact absurd hp (by simp)
    | ok ops p2 =>
      obtain ⟨hrops, hrproc, hrpan⟩ := run_cons_ok p d rest ops p2 hpd
      rw [hrpan] at hp
      obtain ⟨ihd, iha, ihw, ihm, ihww⟩ := ih p2 hp
      rcases process_step_cases p d ops p2 hpd with
        ⟨ho, hp2⟩ | ⟨hm0, hw1, hp2⟩ | ⟨hm1, hw0, hp2⟩
      · subst ho
        subst hp2
        rw [hrops, hrproc, List.nil_append]
        exact ⟨ihd, iha, ihw, ihm, ihww⟩
      · have hd2 : p2.destdir = p.destdir := by rw [hp2]
        have ha2 : p2.archiveCounter = p.archiveCounter := by rw [hp2]
        have hw2 : p2.wholeCounter = p.wholeCounter + 1 := by rw [hp2]
        have hwle : p.wholeCounter + 1 ≤ (run p2 rest).proc.wholeCounter := by
          rw [← hw2]
          exact ihw
        rw [hrops, hrproc]
        refine ⟨by rw [ihd, hd2], by rw [← ha2]; exact iha, by omega, ?_, ?_⟩
        · rw [mkdirPaths_append, hm0, List.nil_append, ihm, ha2, hd2]
        · rw [wholeWritePaths_append, hw1, ihww, hd2, hw2]
          have hn : (run p2 rest).proc.wholeCounter - p.wholeCounter =
              ((run p2 rest).proc.wholeCounter - (p.wholeCounter + 1)) + 1 := by omega
          rw [hn, List.range'_succ, List.map_cons, List.singleton_append]
      · have hd2 : p2.destdir = p.destdir := by rw [hp2]
        have ha2 : p2.archiveCounter = p.archiveCounter + 1 := by rw [hp2]
        have hw2 : p2.wholeCounter = p.wholeCounter := by rw [hp2]
        have hale : p.archiveCounter + 1 ≤ (run p2 rest).proc.archiveCounter := by
          rw [← ha2]
          exact iha
        rw [hrops, hrproc]
        refine ⟨by rw [ihd, hd2], by omega, by rw [← hw2]; exact ihw, ?_, ?_⟩
        · rw [mkdirPaths_append, hm1, ihm, hd2, ha2]
          have hn : (run p2 rest).proc.archiveCounter - p.archiveCounter =
              ((run p2 rest).proc.archiveCounter - (p.archiveCounter + 1)) + 1 := by omega
          rw [hn, List.range'_succ, List.map_cons, List.singleton_append]
        · rw [wholeWritePaths_append, hw0, List.nil_append, ihww, hw2, hd2]

/-! ### Segmenter lemmas -/

lemma candidatesAux_nil (p : Int) : candidatesAux p [] = [] := rfl

lemma candidatesAux_cons (p x : Int) (rest : List Int) :
    candidatesAux p (x :: rest) = (p, x) :: candidatesAux x rest := rfl

lemma segmentsAux_nil (p : Int) : segmentsAux p [] = [] := rfl

lemma segmentsAux_cons (p x : Int) (rest : List Int) :
    segmentsAux p (x :: rest) =
      if int64wrap (x - p) < 32 then segmentsAux x rest
      else (p, x) :: segmentsAux x rest := rfl

lemma int64wrap_eq_self (x : Int) (h1 : -9223372036854775808 ≤ x)
    (h2 : x < 9223372036854775808) : int64wrap x = x := by
  unfold int64wrap
  omega

/-- On boundaries in `[0, 2^63)` the int64 subtraction cannot wrap and the
segment loop keeps exactly the candidate ranges of length at least 32. -/
lemma segmentsAux_eq_filter (s : List Int) :
    ∀ p : Int, 0 ≤ p → p < 9223372036854775808 →
      (∀ b ∈ s, 0 ≤ b ∧ b < 9223372036854775808) →
      segmentsAux p s =
        (candidatesAux p s).filter (fun r => decide (32 ≤ r.2 - r.1)) := by
  induction s with
  | nil => intro p _ _ _; rfl
  | cons x rest ih =>
    intro p hp0 hp1 hb
    obtain ⟨hx0, hx1⟩ := hb x (List.mem_cons_self x rest)
    have hrest : ∀ b ∈ rest, 0 ≤ b ∧ b < 9223372036854775808 :=
      fun b hbm => hb b (List.mem_cons_of_mem _ hbm)
    rw [segmentsAux_cons, candidatesAux_cons, List.filter_cons,
      int64wrap_eq_self (x - p) (by omega) (by omega)]
    by_cases h : x - p < 32
    · rw [if_pos h, ih x hx0 hx1 hrest, if_neg (by simp only [decide_eq_true_eq]; omega)]
    · rw [if_neg h, ih x hx0 hx1 hrest, if_pos (by simp only [decide_eq_true_eq]; omega)]

/-- The first component of every candidate is the seed or a boundary. -/
lemma candidatesAux_fst_mem (s : List Int) :
    ∀ (p : Int) (r : Int × Int), r ∈ candidatesAux p s → r.1 = p ∨ r.1 ∈ s := by
  induction s with
  | nil => intro p r hr; rw [candidatesAux_nil] at hr; simp at hr
  | cons x rest ih =>
    intro p r hr
    rw [candidatesAux_cons] at hr
    rcases List.mem_cons.mp hr with rfl | hm
    · exact Or.inl rfl
    · rcases ih x r hm with h | h
      · exact Or.inr (h ▸ List.mem_cons_self x rest)
      · exact Or.inr (List.mem_cons_of_mem _ h)

/-- On a sorted boundary list the candidate ranges are chained: each range
ends no later than any later range starts. -/
lemma candidatesAux_chain (s : List Int) (hs : s.Sorted (fun a b => (a:Int) ≤ b)) :
    ∀ p : Int, (candidatesAux p s).Pairwise (fun r1 r2 => r1.2 ≤ r2.1) := by
  induction s with
  | nil => intro p; rw [candidatesAux_nil]; exact List.Pairwise.nil
  | cons x rest ih =>
    intro p
    rw [List.sorted_cons] at hs
    rw [candidatesAux_cons]
    refine List.Pairwise.cons ?_ (ih hs.2 x)
    intro r hr
    rcases candidatesAux_fst_mem rest x r hr with h | h
    · rw [h]
    · exact hs.1 r.1 h

/-- Every point below some boundary in the list and at or above the seed
is covered by a candidate range. -/
lemma candidatesAux_cover (x : Int) (s : List Int) :
    ∀ (p : Int) (y : Int), y ∈ s → p ≤ x → x < y →
      ∃ r ∈ candidatesAux p s, r.1 ≤ x ∧ x < r.2 := by
  induction s with
  | nil => intro p y hy; simp at hy
  | cons z rest ih =>
    intro p y hy hp hx
    by_cases hz : x < z
    · exact ⟨(p, z), by rw [candidatesAux_cons]; exact List.mem_cons_self _ _, hp, hz⟩
    · have hy2 : y ∈ rest := by
        rcases List.mem_cons.mp hy with rfl | hm
        · omega
        · exact hm
      obtain ⟨r, hr, hcov⟩ := ih z y hy2 (by omega) hx
      exact ⟨r, by rw [candidatesAux_cons]; exact List.mem_cons_of_mem _ hr, hcov⟩

/-- Candidates are exactly the index-wise consecutive pairs of the
boundary list, with the seed for index 0. -/
lemma candidatesAux_eq_range_map (s : List Int) :
    ∀ p : Int, candidatesAux p s = (List.range s.length).map
      (fun i => (if i = 0 then p else s.getD (i-1) 0, s.getD i 0)) := by
  induction s with
  | nil => intro p; rfl
  | cons x rest ih =>
    intro p
    rw [candidatesAux_cons, List.length_cons, List.range_succ_eq_map, List.map_cons,
      List.map_map]
    have hfun : ((fun i => (if i = 0 then p else (x :: rest).getD (i-1) 0, (x :: rest).getD i 0))
          ∘ (· + 1)) =
        (fun i => (if i = 0 then x else rest.getD (i-1) 0, rest.getD i 0)) := by
      funext i
      cases i with
      | zero => simp
      | succ j => simp
    rw [hfun, ← ih x]
    simp

lemma sortedBoundaries_sorted (offsets : List Int) (sentinel : Int) :
    (sortedBoundaries offsets sentinel).Sorted (fun a b => (a:Int) ≤ b) :=
  List.sorted_insertionSort _ _

lemma sentinel_mem_sortedBoundaries (offsets : List Int) (sentinel : Int) :
    sentinel ∈ sortedBoundaries offsets sentinel := by
  unfold sortedBoundaries
  rw [List.mem_insertionSort]
  exact List.mem_append_right _ (List.mem_singleton_self _)

/-- Sorting and appending the sentinel preserves the boundary bounds. -/
lemma sortedBoundaries_bounds (offsets : List Int) (sentinel : Int)
    (hoff : ∀ b ∈ offsets, 0 ≤ b ∧ b < 9223372036854775808)
    (hs0 : 0 ≤ sentinel) (hs1 : sentinel < 9223372036854775808) :
    ∀ b ∈ sortedBoundaries offsets sentinel, 0 ≤ b ∧ b < 9223372036854775808 := by
  intro b hb
  simp only [sortedBoundaries, List.mem_insertionSort] at hb
  rcases List.mem_append.mp hb with h | h
  · exact hoff b h
  · rw [List.mem_singleton] at h
    subst h
    exact ⟨hs0, hs1⟩

/-! ### Claim theorems -/

/-- C1 (amended): a payload of at least 32768 bytes with zero header magic
and count at most 64 that contains an entry whose offset field is below
8 + 12*count makes the Classifier return with no effect at all: the
payload is dropped entirely (no whole-blob fallback write, counters
unchanged) and never emitted as a partial archive. -/
theorem c1_bad_entry_drops (p : Processor) (data : Bytes)
    (h1 : 32768 ≤ data.length) (h2 : hdrMagic data = 0) (h3 : hdrCount data ≤ 64)
    (i : Nat) (hi : i < (hdrCount data).toNat)
    (hbad : (readEntry data i).offset < 8 + 12 * hdrCount data) :
    process p data = ProcessResult.ok [] p :=
  process_bad_entry p data h1 h2 h3 i hi hbad

/-- C1 witness: the amended behaviour at a concrete payload. -/
theorem c1_bad_entry_drops_witness :
    process ⟨"out", 0, 0⟩ badEntryPayload = ProcessResult.ok [] ⟨"out", 0, 0⟩ :=
  c1_bad_entry_drops _ _ (le_of_eq badEntryPayload_length.symm) badEntryPayload_hdr.1
    (by rw [badEntryPayload_hdr.2]; decide) 0 (by rw [badEntryPayload_hdr.2]; decide)
    (by rw [badEntryPayload_hdr.2, badEntryPayload_entry]; decide)

/-- C1 counterexample to the claim as stated: this payload satisfies the
premise of the claim (length at least 32768, magic 0, count at most 64, at
least 128 bytes, and an entry with offset below 8 + 12*count), yet the
Classifier writes nothing — there is no Opaque whole-blob fallback
write. -/
theorem c1_counterexample :
    32768 ≤ badEntryPayload.length ∧
    hdrMagic badEntryPayload = 0 ∧
    hdrCount badEntryPayload = 1 ∧
    (readEntry badEntryPayload 0).offset < 8 + 12 * hdrCount badEntryPayload ∧
    process ⟨"out", 0, 0⟩ badEntryPayload = ProcessResult.ok [] ⟨"out", 0, 0⟩ := by
  refine ⟨le_of_eq badEntryPayload_length.symm, badEntryPayload_hdr.1, badEntryPayload_hdr.2,
    by rw [badEntryPayload_hdr.2, badEntryPayload_entry]; decide, ?_⟩
  exact process_bad_entry _ _ (le_of_eq badEntryPayload_length.symm) badEntryPayload_hdr.1
    (by rw [badEntryPayload_hdr.2]; decide) 0 (by rw [badEntryPayload_hdr.2]; decide)
    (by rw [badEntryPayload_hdr.2, badEntryPayload_entry]; decide)

/-- C2 (amended): a failed probe (small payload, nonzero magic, or more
than 64 entries) always takes the whole-blob (Opaque) path; but a payload
of at least 32768 bytes whose header decodes to magic 0 and count 0 is
dropped with no effect — it is not written as a whole-blob file. -/
theorem c2_archive_rejection (p : Processor) (data : Bytes) :
    ((data.length < 32768 ∨ hdrMagic data ≠ 0 ∨ 64 < hdrCount data) →
      process p data = wholeBlobStep p data) ∧
    (hdrMagic data = 0 → hdrCount data = 0 → 32768 ≤ data.length →
      process p data = ProcessResult.ok [] p) := by
  constructor
  · intro hc
    unfold process
    rw [if_pos hc]
  · intro hm hz hl
    exact process_zero_count p data hm hz hl

/-- C2 witness: both amended branches at concrete payloads. -/
theorem c2_archive_rejection_witness :
    process ⟨"out", 0, 0⟩ (List.replicate 200 1) =
      wholeBlobStep ⟨"out", 0, 0⟩ (List.replicate 200 1) ∧
    process ⟨"out", 0, 0⟩ zeroCountPayload = ProcessResult.ok [] ⟨"out", 0, 0⟩ :=
  ⟨(c2_archive_rejection _ _).1 (Or.inl (by decide)),
   (c2_archive_rejection _ _).2 zeroCountPayload_hdr.1 zeroCountPayload_hdr.2
     (le_of_eq zeroCountPayload_length.symm)⟩

/-- C2 counterexample to the claim as stated: a 32768-byte payload with
magic 0 and count 0 is at least 128 bytes long, yet `process` performs no
write at all — it is not classified as Opaque (which would have written a
whole-blob file). -/
theorem c2_counterexample :
    hdrMagic zeroCountPayload = 0 ∧ hdrCount zeroCountPayload = 0 ∧
    128 ≤ zeroCountPayload.length ∧
    process ⟨"out", 0, 0⟩ zeroCountPayload = ProcessResult.ok [] ⟨"out", 0, 0⟩ :=
  ⟨zeroCountPayload_hdr.1, zeroCountPayload_hdr.2,
   by rw [zeroCountPayload_length]; decide,
   process_zero_count _ _ zeroCountPayload_hdr.1 zeroCountPayload_hdr.2
     (le_of_eq zeroCountPayload_length.symm)⟩

/-- C5: a payload of exactly 127 bytes (necessarily non-archive) is
silently dropped with no state change; a payload of exactly 128 bytes is
written whole as `whole_<NNN>` and the whole-blob counter advances. -/
theorem c5_opaque_size_boundary (p : Processor) (data : Bytes) :
    (data.length = 127 → process p data = ProcessResult.ok [] p) ∧
    (data.length = 128 → process p data =
      ProcessResult.ok
        [FileOp.write [p.destdir, "whole_" ++ zeroPad 3 p.wholeCounter] data]
        ⟨p.destdir, p.archiveCounter, p.wholeCounter + 1⟩) := by
  constructor
  · intro h
    unfold process
    rw [if_pos (Or.inl (by omega))]
    unfold wholeBlobStep
    rw [if_pos (by omega)]
  · intro h
    unfold process
    rw [if_pos (Or.inl (by omega))]
    unfold wholeBlobStep
    rw [if_neg (by omega)]

/-- C5 witness: the boundary behaviour at concrete 127- and 128-byte
payloads. -/
theorem c5_opaque_size_boundary_witness :
    process ⟨"out", 0, 0⟩ (List.replicate 127 5) = ProcessResult.ok [] ⟨"out", 0, 0⟩ ∧
    process ⟨"out", 0, 0⟩ (List.replicate 128 5) =
      ProcessResult.ok
        [FileOp.write ["out", "whole_" ++ zeroPad 3 0] (List.replicate 128 5)]
        ⟨"out", 0, 1⟩ :=
  ⟨(c5_opaque_size_boundary _ _).1 (by decide),
   (c5_opaque_size_boundary _ _).2 (by decide)⟩

/-- C7: a relocation-section byte buffer whose length is not an exact
multiple of the 24-byte record size fails the entire run fatally, before
any record is processed. -/
theorem c7_reloc_size_fatal (rels : Bytes) (symbols : List ElfSymbol)
    (sectionNames : List String) (target : String) (h : rels.length % 24 ≠ 0) :
    parseRelocations rels symbols sectionNames target = RelocResult.fatal := by
  unfold parseRelocations
  rw [if_pos h]

/-- C7 witness: a 25-byte relocation buffer aborts the run. -/
theorem c7_reloc_size_fatal_witness :
    parseRelocations (List.replicate 25 0) [] [] (".rodata") = RelocResult.fatal :=
  c7_reloc_size_fatal _ _ _ _ (by decide)

/-- C9: a payload of at least 32768 bytes whose header decodes to magic 0
and a negative count panics (negative-length `make`), aborting the run —
the probe rejects only `count > 64`, never negative counts. -/
theorem c9_negative_count_panics (p : Processor) (data : Bytes)
    (h1 : 32768 ≤ data.length) (h2 : hdrMagic data = 0) (h3 : hdrCount data < 0) :
    process p data = ProcessResult.panics [] := by
  unfold process
  rw [if_neg (by push_neg; exact ⟨by omega, h2, by omega⟩), if_pos h3]

/-- C9 witness: a concrete 32768-byte payload with count -2147483648
panics. -/
theorem c9_negative_count_panics_witness :
    process ⟨"out", 0, 0⟩ negCountPayload = ProcessResult.panics [] :=
  c9_negative_count_panics _ _ (le_of_eq negCountPayload_length.symm)
    negCountPayload_hdr.1 (by rw [negCountPayload_hdr.2]; decide)

/-- C10: every rejected payload — probe failure with fewer than 128 bytes,
entry-validation failure or short read, or a zero-entry archive — leaves
both counters unchanged and performs no filesystem operation. -/
theorem c10_rejection_frame (p : Processor) (data : Bytes)
    (h : ((data.length < 32768 ∨ hdrMagic data ≠ 0 ∨ 64 < hdrCount data) ∧
            data.length < 128) ∨
         (¬(data.length < 32768 ∨ hdrMagic data ≠ 0 ∨ 64 < hdrCount data) ∧
            0 ≤ hdrCount data ∧
            (readEntriesFrom data (8 + 12 * hdrCount data) 0 (hdrCount data).toNat = none ∨
             hdrCount data = 0))) :
    process p data = ProcessResult.ok [] p := by
  rcases h with ⟨hc, hsmall⟩ | ⟨hc, hnn, hrej⟩
  · unfold process
    rw [if_pos hc]
    unfold wholeBlobStep
    rw [if_pos hsmall]
  · rw [process_archive p data hc hnn]
    have hcast : ((hdrCount data).toNat : Int) = hdrCount data := Int.toNat_of_nonneg hnn
    rcases hrej with hnone | hzero
    · rw [hcast, hnone]
    · rw [hzero]
      rfl

/-- C8: in an archive payload whose entries all passed the minimum-offset
validation, any entry with a negative length or with offset + length
beyond the payload end makes the emit step panic (Go slice bounds), which
aborts the entire run — it is not skipped or recovered. -/
theorem c8_oob_slice_panics (p : Processor) (data : Bytes)
    (h1 : 32768 ≤ data.length) (h2 : hdrMagic data = 0)
    (h3 : 0 < hdrCount data) (h4 : hdrCount data ≤ 64)
    (hvalid : ∀ i < (hdrCount data).toNat,
      8 + 12 * hdrCount data ≤ (readEntry data i).offset)
    (hbad : ∃ i < (hdrCount data).toNat,
      (readEntry data i).length < 0 ∨
        (data.length : Int) < (readEntry data i).offset + (readEntry data i).length) :
    ∃ ops, process p data = ProcessResult.panics ops := by
  have hnn : (0:Int) ≤ hdrCount data := le_of_lt h3
  have hcast : ((hdrCount data).toNat : Int) = hdrCount data := Int.toNat_of_nonneg hnn
  have hsome := @readEntriesFrom_eq_some data
      (8 + 12 * ((hdrCount data).toNat : Int)) (hdrCount data).toNat 0
    (by intro i hi1 hi2; rw [hcast]; exact hvalid i (by omega))
    (by have : (hdrCount data).toNat ≤ 64 := by omega
        omega)
  obtain ⟨i, hi, hib⟩ := hbad
  have hioff := hvalid i hi
  have hobnd := readEntry_offset_bounds data i
  have hlbnd := readEntry_length_bounds data i
  have hslice : sliceBytes data (readEntry data i).offset
      (int32wrap ((readEntry data i).offset + (readEntry data i).length)) = none := by
    unfold sliceBytes int32wrap
    split
    · rename_i hcond
      exfalso
      obtain ⟨hc0, hc1, hc2⟩ := hcond
      omega
    · rfl
  have hmem : readEntry data i ∈ (List.map (readEntry data) (List.range' 0 (hdrCount data).toNat)) :=
    List.mem_map_of_mem _ (List.mem_range'_1.mpr ⟨Nat.zero_le i, by omega⟩)
  have hflag := @emitEntries_panics data
    [p.destdir, "archive_" ++ zeroPad 2 p.archiveCounter] (readEntry data i) _ hmem hslice
  have hproc : process p data = ProcessResult.panics
      (FileOp.mkdir [p.destdir, "archive_" ++ zeroPad 2 p.archiveCounter] ::
        (emitEntries data [p.destdir, "archive_" ++ zeroPad 2 p.archiveCounter]
          (List.map (readEntry data) (List.range' 0 (hdrCount data).toNat))).1) := by
    rw [process_archive_some p data (probe_accepts h1 h2 h4) hnn _ hsome]
    rw [if_neg (by simp only [List.length_map, List.length_range']; omega)]
    rw [if_pos hflag]
  exact ⟨_, hproc⟩

/-- C8 witness: a concrete payload with a validated entry whose slice
overruns the payload panics. -/
theorem c8_oob_slice_panics_witness :
    ∃ ops, process ⟨"out", 0, 0⟩ oobEntryPayload = ProcessResult.panics ops :=
  c8_oob_slice_panics _ _ (le_of_eq oobEntryPayload_length.symm) oobEntryPayload_hdr.1
    (by rw [oobEntryPayload_hdr.2]; decide) (by rw [oobEntryPayload_hdr.2]; decide)
    (by intro i hi
        rw [oobEntryPayload_hdr.2] at hi ⊢
        have hz : i = 0 := by omega
        subst hz
        rw [oobEntryPayload_entry]
        decide)
    ⟨0, by rw [oobEntryPayload_hdr.2]; decide,
      Or.inr (by rw [oobEntryPayload_entry, oobEntryPayload_length]; decide)⟩

/-- In-bounds slices succeed and return exactly `data[off : off+len]`. -/
lemma sliceBytes_some_of_inbounds (data : Bytes) (off len : Int)
    (h0 : 0 ≤ off) (h1 : 0 ≤ len) (hub : off + len ≤ (data.length : Int))
    (hcap : (data.length : Int) < 2147483648) :
    sliceBytes data off (int32wrap (off + len)) =
      some ((data.drop off.toNat).take len.toNat) := by
  rw [int32wrap_eq_self _ (by omega) (by omega)]
  unfold sliceBytes
  rw [if_pos ⟨h0, by omega, hub⟩, show off + len - off = len from by ring]

/-- C4: a payload of at least 32768 bytes (with int32-representable
length) whose header is `{magic 0, count 2}` and whose two entries have
distinct ids and in-bounds, non-overlapping offset/length pairs with
offsets at least 8 + 12*2 = 32, is emitted as a fresh archive directory
containing exactly two files: each named by the NameTable lookup of the
entry id (`unk<id>` outside 0..35, via `nameFor`) and byte-identical to
`data[offset : offset+length]`; the archive counter advances by one. -/
theorem c4_archive_roundtrip (p : Processor) (data : Bytes)
    (hlen : 32768 ≤ data.length) (hlen2 : (data.length : Int) < 2147483648)
    (hmagic : hdrMagic data = 0) (hcount : hdrCount data = 2)
    (e1 e2 : ArchiveEntry) (he1 : readEntry data 0 = e1) (he2 : readEntry data 1 = e2)
    (hid : e1.id ≠ e2.id)
    (hoff1 : 32 ≤ e1.offset) (hoff2 : 32 ≤ e2.offset)
    (hl1 : 0 ≤ e1.length) (hl2 : 0 ≤ e2.length)
    (hb1 : e1.offset + e1.length ≤ (data.length : Int))
    (hb2 : e2.offset + e2.length ≤ (data.length : Int))
    (hdisj : e1.offset + e1.length ≤ e2.offset ∨ e2.offset + e2.length ≤ e1.offset) :
    process p data = ProcessResult.ok
      [ FileOp.mkdir [p.destdir, "archive_" ++ zeroPad 2 p.archiveCounter]
      , FileOp.write [p.destdir, "archive_" ++ zeroPad 2 p.archiveCounter, nameFor e1.id]
          ((data.drop e1.offset.toNat).take e1.length.toNat)
      , FileOp.write [p.destdir, "archive_" ++ zeroPad 2 p.archiveCounter, nameFor e2.id]
          ((data.drop e2.offset.toNat).take e2.length.toNat) ]
      ⟨p.destdir, p.archiveCounter + 1, p.wholeCounter⟩ := by
  have hnn : (0:Int) ≤ hdrCount data := by rw [hcount]; norm_num
  have hc2 : (hdrCount data).toNat = 2 := by rw [hcount]; rfl
  have hre : readEntriesFrom data (8 + 12 * ((hdrCount data).toNat : Int)) 0
      (hdrCount data).toNat = some [e1, e2] := by
    rw [hc2, show (8:Int) + 12 * (((2:Nat)) : Int) = 32 from by norm_num]
    rw [readEntriesFrom_succ data 32 0 1, if_neg (by omega), he1, if_neg (not_lt.mpr hoff1)]
    rw [readEntriesFrom_succ data 32 1 0, if_neg (by omega), he2, if_neg (not_lt.mpr hoff2)]
    rw [readEntriesFrom_zero data 32 2]
    rfl
  have hs1 := sliceBytes_some_of_inbounds data e1.offset e1.length (by omega) hl1 hb1 hlen2
  have hs2 := sliceBytes_some_of_inbounds data e2.offset e2.length (by omega) hl2 hb2 hlen2
  have hemit : emitEntries data [p.destdir, "archive_" ++ zeroPad 2 p.archiveCounter] [e1, e2] =
      ([ FileOp.write [p.destdir, "archive_" ++ zeroPad 2 p.archiveCounter, nameFor e1.id]
           ((data.drop e1.offset.toNat).take e1.length.toNat)
       , FileOp.write [p.destdir, "archive_" ++ zeroPad 2 p.archiveCounter, nameFor e2.id]
           ((data.drop e2.offset.toNat).take e2.length.toNat) ], false) := by
    rw [emitEntries_cons, hs1, emitEntries_cons, hs2, emitEntries_nil]
    rfl
  rw [process_archive_some p data (probe_accepts hlen hmagic (by rw [hcount]; norm_num)) hnn
    [e1, e2] hre]
  rw [if_neg (by simp), hemit]
  rfl

/-- C4 witness: the round-trip at a concrete synthesized payload with
entries {id 1, len 4, off 32} and {id 100, len 4, off 36}. -/
theorem c4_archive_roundtrip_witness :
    process ⟨"out", 0, 0⟩ twoEntryPayload = ProcessResult.ok
      [ FileOp.mkdir ["out", "archive_" ++ zeroPad 2 0]
      , FileOp.write ["out", "archive_" ++ zeroPad 2 0, nameFor 1]
          ((twoEntryPayload.drop (32:Int).toNat).take (4:Int).toNat)
      , FileOp.write ["out", "archive_" ++ zeroPad 2 0, nameFor 100]
          ((twoEntryPayload.drop (36:Int).toNat).take (4:Int).toNat) ]
      ⟨"out", 1, 0⟩ :=
  c4_archive_roundtrip _ _ (le_of_eq twoEntryPayload_length.symm)
    (by rw [twoEntryPayload_length]; decide) twoEntryPayload_hdr.1 twoEntryPayload_hdr.2
    _ _ twoEntryPayload_entries.1 twoEntryPayload_entries.2
    (by decide) (by decide) (by decide) (by decide) (by decide)
    (by rw [twoEntryPayload_length]; decide) (by rw [twoEntryPayload_length]; decide)
    (Or.inl (by decide))

/-- C3 (amended): for boundaries on which the program's wrapping int64
subtraction cannot wrap — all relocation offsets and the sentinel in
`[0, 2^63)`, as offsets into a real section are — the Segmenter emits,
over the sorted boundary list, exactly the consecutive-pair candidate
ranges — index-wise `[boundary[i-1] (or 0 for i = 0), boundary[i])` — of
length at least 32; the emitted ranges are pairwise disjoint; and every
point of `[0, sentinel)` lies in some candidate range, which is emitted
whenever its length is at least 32 (the rest are the discarded
sub-32-byte gaps). Without the range restriction the int64 difference can
wrap and a mathematically long range is skipped. -/
theorem c3_segmenter_ranges (offsets : List Int) (sentinel : Int)
    (hoff : ∀ b ∈ offsets, 0 ≤ b ∧ b < 9223372036854775808)
    (hs0 : 0 ≤ sentinel) (hs1 : sentinel < 9223372036854775808)
    (x : Int) (hx0 : 0 ≤ x) (hxs : x < sentinel) :
    (segmenter offsets sentinel =
      (candidatesAux 0 (sortedBoundaries offsets sentinel)).filter
        (fun r => decide (32 ≤ r.2 - r.1)) ∧
     candidatesAux 0 (sortedBoundaries offsets sentinel) =
      (List.range (sortedBoundaries offsets sentinel).length).map
        (fun i => (if i = 0 then 0 else (sortedBoundaries offsets sentinel).getD (i-1) 0,
          (sortedBoundaries offsets sentinel).getD i 0))) ∧
    (segmenter offsets sentinel).Pairwise
      (fun r1 r2 => ∀ y : Int, ¬(r1.1 ≤ y ∧ y < r1.2 ∧ r2.1 ≤ y ∧ y < r2.2)) ∧
    ∃ r ∈ candidatesAux 0 (sortedBoundaries offsets sentinel),
      (32 ≤ r.2 - r.1 → r ∈ segmenter offsets sentinel) ∧ r.1 ≤ x ∧ x < r.2 := by
  have hbnd := sortedBoundaries_bounds offsets sentinel hoff hs0 hs1
  have hfilter : segmentsAux 0 (sortedBoundaries offsets sentinel) =
      (candidatesAux 0 (sortedBoundaries offsets sentinel)).filter
        (fun r => decide (32 ≤ r.2 - r.1)) :=
    segmentsAux_eq_filter _ 0 (le_refl 0) (by norm_num) hbnd
  refine ⟨⟨hfilter, candidatesAux_eq_range_map _ 0⟩, ?_, ?_⟩
  · have hchain := candidatesAux_chain _ (sortedBoundaries_sorted offsets sentinel) 0
    have hsub : List.Sublist (segmenter offsets sentinel)
        (candidatesAux 0 (sortedBoundaries offsets sentinel)) := by
      unfold segmenter
      rw [hfilter]
      exact List.filter_sublist _
    refine List.Pairwise.imp ?_ (List.Pairwise.sublist hsub hchain)
    intro a b hab y hy
    obtain ⟨hy1, hy2, hy3, hy4⟩ := hy
    omega
  · obtain ⟨r, hr, hcov⟩ := candidatesAux_cover x (sortedBoundaries offsets sentinel) 0
      sentinel (sentinel_mem_sortedBoundaries offsets sentinel) hx0 hxs
    refine ⟨r, hr, ?_, hcov.1, hcov.2⟩
    intro h32
    unfold segmenter
    rw [hfilter]
    exact List.mem_filter.mpr ⟨hr, decide_eq_true h32⟩

/-- C3 witness: the characterization at concrete boundaries 40, 100 with
sentinel 200 and interior point 50. -/
theorem c3_segmenter_ranges_witness :
    (segmenter [40, 100] 200 =
      (candidatesAux 0 (sortedBoundaries [40, 100] 200)).filter
        (fun r => decide (32 ≤ r.2 - r.1)) ∧
     candidatesAux 0 (sortedBoundaries [40, 100] 200) =
      (List.range (sortedBoundaries [40, 100] 200).length).map
        (fun i => (if i = 0 then 0 else (sortedBoundaries [40, 100] 200).getD (i-1) 0,
          (sortedBoundaries [40, 100] 200).getD i 0))) ∧
    (segmenter [40, 100] 200).Pairwise
      (fun r1 r2 => ∀ y : Int, ¬(r1.1 ≤ y ∧ y < r1.2 ∧ r2.1 ≤ y ∧ y < r2.2)) ∧
    ∃ r ∈ candidatesAux 0 (sortedBoundaries [40, 100] 200),
      (32 ≤ r.2 - r.1 → r ∈ segmenter [40, 100] 200) ∧ r.1 ≤ 50 ∧ 50 < r.2 :=
  c3_segmenter_ranges [40, 100] 200 (by decide) (by decide) (by decide) 50
    (by decide) (by decide)

/-- C3 counterexample to the claim as stated: with the reachable signed
64-bit relocation offset -2^63 and sentinel 100, the consecutive-pair
candidate (-2^63, 100) has length far above 32, yet the program's int64
subtraction wraps to a negative value and the Segmenter emits nothing —
not the set of all candidate ranges of length at least 32. -/
theorem c3_counterexample :
    ((-9223372036854775808, 100) : Int × Int) ∈
      candidatesAux 0 (sortedBoundaries [-9223372036854775808] 100) ∧
    32 ≤ (100 : Int) - (-9223372036854775808) ∧
    segmenter [-9223372036854775808] 100 = [] := by
  exact ⟨by decide, by decide, by decide⟩

/-- C6: over any one non-panicking run starting with fresh counters, the
created archive directories are exactly `archive_00 .. archive_(N-1)` in
processing order, where N is the final archive counter (the number of
accepted archives), with no gaps or repeats, independent of rejected
payloads in between; likewise the whole-blob writes are exactly
`whole_000 .. whole_(M-1)` in order of acceptance. -/
theorem c6_counter_monotonic (destdir : String) (ds : List Bytes)
    (h : (run ⟨destdir, 0, 0⟩ ds).panicked = false) :
    mkdirPaths (run ⟨destdir, 0, 0⟩ ds).ops =
      (List.range (run ⟨destdir, 0, 0⟩ ds).proc.archiveCounter).map
        (fun i => [destdir, "archive_" ++ zeroPad 2 i]) ∧
    wholeWritePaths (run ⟨destdir, 0, 0⟩ ds).ops =
      (List.range (run ⟨destdir, 0, 0⟩ ds).proc.wholeCounter).map
        (fun i => [destdir, "whole_" ++ zeroPad 3 i]) := by
  obtain ⟨hd, ha, hw, hm, hww⟩ := run_invariant ds ⟨destdir, 0, 0⟩ h
  constructor
  · rw [hm, List.range_eq_range']
    rfl
  · rw [hww, List.range_eq_range']
    rfl

/-- C6 witness: a run over one 128-byte payload writes exactly
`whole_000` and creates no archive directory. -/
theorem c6_counter_monotonic_witness :
    mkdirPaths (run ⟨"out", 0, 0⟩ [List.replicate 128 1]).ops =
      (List.range (run ⟨"out", 0, 0⟩ [List.replicate 128 1]).proc.archiveCounter).map
        (fun i => ["out", "archive_" ++ zeroPad 2 i]) ∧
    wholeWritePaths (run ⟨"out", 0, 0⟩ [List.replicate 128 1]).ops =
      (List.range (run ⟨"out", 0, 0⟩ [List.replicate 128 1]).proc.wholeCounter).map
        (fun i => ["out", "whole_" ++ zeroPad 3 i]) :=
  c6_counter_monotonic ("out") [List.replicate 128 1] (by decide)

/-- C10 witness: the empty payload is rejected with no effect. -/
theorem c10_rejection_frame_witness :
    process ⟨"out", 0, 0⟩ [] = ProcessResult.ok [] ⟨"out", 0, 0⟩ :=
  c10_rejection_frame _ _ (Or.inl ⟨Or.inl (by decide), by decide⟩)

end Scanner
